import Mathlib

/-!
Verification model of the yauil reactive store (`src/store.ts`, shipped here as
`src/unnamed/part_000` together with its test file) and of the DOM reconciler
(`src/dom.ts`).  The store is a JS `Proxy` over a signal object; we model the
proxy target as an explicit state: the underlying structured value (`$VALUE`)
plus the list of lazily materialized children (the target's own enumerable
string-keyed properties).  The internal fields (`$id`, `$value`, `$nodes`,
`$listeners`, `$dependencies`, `$updater`) are symbol-keyed in the source, so
they never show up in `for...in` loops or string property access and are kept
outside the children list here.

`src/signal.ts` is not part of the sources; everything taken from it is
modelled from the spec and marked as such.
-/

/-- A JavaScript value as far as the store is concerned.  Objects are modelled
structurally as ordered field lists (JS insertion order for the plain
string-keyed objects used here); reference identity of objects is not tracked,
so the `!==` checks of the source are modelled as structural inequality (they
agree on primitives, which is all the settled claims exercise).  Function
values are not modelled (the source's method branch in `handler.get` binds them
to the proxy and never caches them). -/
inductive JSVal where
  | undefined
  | null
  | bool (b : Bool)
  | num (n : Int)
  | str (s : String)
  | obj (fields : List (String × JSVal))

mutual

/-- Structural equality on modelled JS values, standing in for the source's
`!==` checks (they agree on primitives; object identity is not tracked). -/
def JSVal.beq : JSVal → JSVal → Bool
  | .undefined, .undefined => true
  | .null, .null => true
  | .bool a, .bool b => a == b
  | .num a, .num b => a == b
  | .str a, .str b => a == b
  | .obj fs, .obj gs => JSVal.beqFields fs gs
  | _, _ => false

def JSVal.beqFields : List (String × JSVal) → List (String × JSVal) → Bool
  | [], [] => true
  | (k1, v1) :: r1, (k2, v2) :: r2 =>
    k1 == k2 && JSVal.beq v1 v2 && JSVal.beqFields r1 r2
  | _, _ => false

end

instance instBEqJSVal : BEq JSVal := ⟨JSVal.beq⟩

/-- `typeof v === "object" && v !== null` — the validity check used by
`createStore` and `storePrototype.set` (note `typeof null === "object"`, hence
the explicit null part in the source). -/
def isObjVal : JSVal → Bool
  | .obj _ => true
  | _ => false

/-- Own-property lookup on an object's field list (`hasOwnProperty` /
property read). -/
def objGetF (fields : List (String × JSVal)) (k : String) : Option JSVal :=
  (fields.find? (·.1 == k)).map (·.2)

/-- Property assignment `o[k] = v`: overwrite an existing key in place,
otherwise append (JS insertion order). -/
def objSetF (fields : List (String × JSVal)) (k : String) (v : JSVal) :
    List (String × JSVal) :=
  if (fields.find? (·.1 == k)).isSome then
    fields.map (fun p => if p.1 == k then (p.1, v) else p)
  else fields ++ [(k, v)]

/-- `this[$VALUE][prop] = value` where the underlying value is an object. -/
def objSetVal (cur : JSVal) (k : String) (v : JSVal) : JSVal :=
  match cur with
  | .obj fs => .obj (objSetF fs k v)
  | other => other

/-- `this[$VALUE][key]` (undefined when the key is absent). -/
def objGet1 (cur : JSVal) (k : String) : JSVal :=
  match cur with
  | .obj fs => (objGetF fs k).getD .undefined
  | _ => .undefined

/-- A materialized child of a store: either a child signal (for primitive
values) or a child store (for object values).

Modelled from the spec: `src/signal.ts` is not in the sources.  Per spec §4.1 a
signal's `set(newValue)` assigns the value and returns whether it changed
(`!==`), and emits — running its listeners — exactly when it changed.  The
only listener a child signal ever carries in the store code is the write-back
listener installed by `handler.get` (`target[prop][$listeners] = [(value) =>
target[$VALUE][prop] = value]`); the `writeback` flag records whether that
listener is installed. -/
inductive Reactive where
  | sig (value : JSVal) (writeback : Bool)
  | store (value : JSVal) (children : List (String × Reactive))

/-- `this[$VALUE]` of a signal or store. -/
def reactiveValue : Reactive → JSVal
  | .sig v _ => v
  | .store v _ => v

/-- Child lookup among the target's own properties (`target.hasOwnProperty`). -/
def childGet (cs : List (String × Reactive)) (k : String) : Option Reactive :=
  (cs.find? (·.1 == k)).map (·.2)

/-- Overwrite the child cached under `k` (the source mutates the child object
in place; here we put the updated child back at its key). -/
def childPut (cs : List (String × Reactive)) (k : String) (c : Reactive) :
    List (String × Reactive) :=
  cs.map (fun p => if p.1 == k then (p.1, c) else p)

/-- Cache a new child under `k` (`target[prop] = ...`, a fresh own property,
appended in insertion order). -/
def childAdd (cs : List (String × Reactive)) (k : String) (c : Reactive) :
    List (String × Reactive) :=
  cs ++ [(k, c)]

/-- Effect of the child's emit on the parent's underlying value: a child
signal that carries the write-back listener writes its new value into
`target[$VALUE][prop]` when (and only when) its `set` reported a change.
Child stores install no such listener (they are expected to share the object
reference instead), and a signal created by `handler.set`'s else-branch has no
listener either. -/
def applyWriteback (cur : JSVal) (k : String) (c : Reactive) (changed : Bool) :
    JSVal :=
  match c, changed with
  | .sig nv true, true => objSetVal cur k nv
  | _, _ => cur

mutual

/-- `storePrototype.set` after the update-function has been resolved, i.e. the
body of `set` from the validity check on (part_000 lines 85–107), also used
for the delegated `this[key].set(value[key])` calls, where the child may be a
plain signal (spec-modelled signal `set`) or a nested store.  Returns the
updated reactive and the aggregated `hasChanged` flag.  Note that both
`hasChanged ||= ...` occurrences in the source short-circuit: once
`hasChanged` is true the right-hand side — including the delegated child
`set` — is *not* evaluated. -/
def reactiveSet (r : Reactive) (v : JSVal) : Except String (Reactive × Bool) :=
  match r with
  | .sig old wb =>
    -- Modelled from the spec (§4.1, signal.ts missing): assigns the value,
    -- returns whether it changed; emit (and hence the write-back listener,
    -- applied by the caller via `applyWriteback`) fires only on change.
    pure (.sig v wb, !(old == v))
  | .store val children =>
    match v with
    | .obj vfields => do
      -- first pass: for (const key in this) — the target's own enumerable
      -- string keys are exactly the materialized children (internals are
      -- symbols); the enumerable prototype key "set" is skipped explicitly.
      let (cur1, cs1, hc1) ← pass1 vfields val children false
      -- second pass: for (const key in value)
      let (cur2, cs2, hc2) ← pass2 vfields cur1 cs1 hc1
      -- this[$VALUE] = value; if (hasChanged) this[$EMIT]()  (the store's own
      -- listeners/attached outputs are not modelled — none exist in the
      -- settled scenarios); cur2, the old underlying object, is dropped.
      let _ := cur2
      pure (.store (.obj vfields) cs2, hc2)
    | _ => throw "The value of a store must be an object"
termination_by (sizeOf v, 0)

/-- First loop of `storePrototype.set`: iterate the keys currently on the
store object, threading the (old) underlying value `cur` for write-backs, the
surviving children, and `hasChanged`. -/
def pass1 (vfields : List (String × JSVal)) (cur : JSVal)
    (cs : List (String × Reactive)) (hc : Bool) :
    Except String (JSVal × List (String × Reactive) × Bool) :=
  match cs with
  | [] => pure (cur, [], hc)
  | (k, c) :: rest =>
    if k == "set" then do
      -- if (key === "set") continue;
      let (cur2, cs2, hc2) ← pass1 vfields cur rest hc
      pure (cur2, (k, c) :: cs2, hc2)
    else
      match h : objGetF vfields k with
      | some vk =>
        -- value.hasOwnProperty(key): hasChanged ||= this[key].set(value[key])
        if hc then do
          -- short-circuit: the child's set is not called
          let (cur2, cs2, hc2) ← pass1 vfields cur rest hc
          pure (cur2, (k, c) :: cs2, hc2)
        else do
          let (c2, changed) ← reactiveSet c vk
          let cur2 := applyWriteback cur k c2 changed
          let (cur3, cs3, hc3) ← pass1 vfields cur2 rest changed
          pure (cur3, (k, c2) :: cs3, hc3)
      | none =>
        -- delete this[key]; hasChanged = true
        pass1 vfields cur rest true
termination_by (sizeOf vfields, sizeOf cs)
decreasing_by
  all_goals simp_wf
  all_goals first
    | (apply Prod.Lex.right
       omega)
    | (apply Prod.Lex.left
       first
         | omega
         | (have key : ∀ (fs : List (String × JSVal)) (vv : JSVal),
               objGetF fs k = some vv → sizeOf vv < sizeOf fs := by
              intro fs
              induction fs with
              | nil =>
                intro vv hvv
                simp [objGetF] at hvv
              | cons hd tl ih =>
                intro vv hvv
                rcases hd with ⟨k1, v1⟩
                by_cases hk : (k1 == k)
                · simp [objGetF, List.find?, hk] at hvv
                  subst hvv
                  simp
                  omega
                · simp only [objGetF, List.find?, hk, cond_false] at hvv
                  have := ih vv hvv
                  simp
                  omega
            have := key vfields vk h
            omega))

/-- Second loop of `storePrototype.set`: iterate the new value's own
enumerable keys (`rem` starts as the new value's field list; JS objects have
unique keys, so each entry is its own lookup result). -/
def pass2 (rem : List (String × JSVal)) (cur : JSVal)
    (cs : List (String × Reactive)) (hc : Bool) :
    Except String (JSVal × List (String × Reactive) × Bool) :=
  match rem with
  | [] => pure (cur, cs, hc)
  | (k, vk) :: rest =>
    match childGet cs k with
    | some c =>
      if hc then
        -- both `hasChanged ||= this[key].set(value[key])` and
        -- `hasChanged ||= this[$VALUE][key] !== value[key]` short-circuit
        pass2 rest cur cs hc
      else do
        let (c2, changed) ← reactiveSet c vk
        let cur2 := applyWriteback cur k c2 changed
        let cs2 := childPut cs k c2
        let hc2 := changed || !(objGet1 cur2 k == vk)
        pass2 rest cur2 cs2 hc2
    | none =>
      let hc2 := hc || !(objGet1 cur k == vk)
      pass2 rest cur cs hc2
termination_by (sizeOf rem, 0)

end

/-- `storePrototype.set` entry point: resolve the functional form
(`value = typeof value === "function" ? value(this[$VALUE]) : value`), then
run the set body.  The two argument shapes mirror `Type | ((_: Type) => Type)`
(our `JSVal` carries no function values, so the `inl` shape is never a
function). -/
def storePrototype_set (r : Reactive) (arg : JSVal ⊕ (JSVal → JSVal)) :
    Except String (Reactive × Bool) :=
  let v := match arg with
    | .inl x => x
    | .inr f => f (reactiveValue r)
  reactiveSet r v

/-- `createStore(init)`: throws unless the initial value is a non-null object,
otherwise wraps a fresh signal holding `init` (no children are materialized
yet) behind the proxy. -/
def createStore (init : JSVal) : Except String Reactive :=
  if isObjVal init then pure (.store init []) else
    throw "The initial value of a store must be an object"

/-- The proxy `get` trap (`handler.get`): returns the possibly-extended
children list and the reactive the property access produces (`none` both for
missing keys — `undefined` — and for the prototype's `set` method, which is
returned bound but is not a reactive child).  Internal keys are symbols and
cannot be reached through a string property.  Function-valued entries of the
underlying object (the source's `case "function"`) are not modelled. -/
def handler_get (val : JSVal) (children : List (String × Reactive))
    (prop : String) : List (String × Reactive) × Option Reactive :=
  match childGet children prop with
  | some c => (children, some c)
  | none =>
    if prop == "set" then
      -- signalPrototype.hasOwnProperty(prop): modelled from the spec — the
      -- signal prototype's string-keyed method is `set` (shadowed by
      -- storePrototype.set); it is returned bound to the target.
      (children, none)
    else
      match objGetF (match val with | .obj fs => fs | _ => []) prop with
      | some v =>
        match v with
        | .obj _ =>
          -- target[prop] ??= createStore(value)
          let c := Reactive.store v []
          (childAdd children prop c, some c)
        | _ =>
          -- primitive (including null, which falls through the object case):
          -- target[prop] = createSignal(value) with the write-back listener
          let c := Reactive.sig v true
          (childAdd children prop c, some c)
      | none => (children, none)

/-- The proxy `set` trap (`handler.set`): writes through an existing child's
`set` (unwrapping a reactive right-hand side), or caches a brand-new signal —
note that this branch installs *no* write-back listener and does not touch the
underlying value.  Always emits afterwards (the store's own listeners are not
modelled). -/
def handler_set (val : JSVal) (children : List (String × Reactive))
    (prop : String) (v : JSVal ⊕ Reactive) :
    Except String (JSVal × List (String × Reactive)) :=
  match childGet children prop with
  | some c => do
    -- target.hasOwnProperty(prop) && isSignal(target[prop]): children are
    -- always signals or stores, so isSignal holds
    let nv := match v with
      | .inl x => x
      | .inr r => reactiveValue r
    let (c2, changed) ← reactiveSet c nv
    let val2 := applyWriteback val prop c2 changed
    pure (val2, childPut children prop c2)
  | none =>
    -- target[prop] = isSignal(value) ? value : createSignal(value)
    let c := match v with
      | .inr r => r
      | .inl x => Reactive.sig x false
    pure (val, childAdd children prop c)


/-!
## DOM reconciler (`src/dom.ts`)

The DOM is modelled as a single shared parent whose ordered child list is
`Dom.tree`; a node "has a parent" exactly when it is in that list (all the
reconciliation in `dom.ts` happens among consecutive siblings).  Node identity
is a `Nat` id; `Dom.kinds` is the node store (`nodeType` plus mutable
content).  `Dom.trace` records, in order, every tree insertion, tree removal
and `cleanup` invocation — the observable events the temporal claims are
about.  `Dom.attrToProperty` is the module-global `attributeToProperty`
table.  `Dom.fresh` is the next unused node id; `document.createElement`-style
constructors allocate ids in order.
-/

/-- `nodeType` plus the node's mutable content: text/comment data, an
attribute's name, value and owner element, an element's present attribute
names and its (string-valued) properties. -/
inductive NodeKind where
  | text (s : String)
  | comment (s : String)
  | attr (name : String) (value : String) (owner : Option Nat)
  | element (attrs : List String) (props : List (String × String))
deriving DecidableEq, Repr

/-- Observable tree events: a node entering the tree, a node leaving the
tree, and an invocation of the `cleanup` hook. -/
inductive DomEvent where
  | insert (n : Nat)
  | remove (n : Nat)
  | cleanup (n : Nat)
deriving DecidableEq, Repr

structure Dom where
  kinds : List (Nat × NodeKind)
  tree : List Nat
  trace : List DomEvent
  attrToProperty : List (String × String)
  fresh : Nat
deriving DecidableEq, Repr

/-- Allocate a fresh detached node (`new Text(...)`, `new Comment(...)`). -/
def newNode (d : Dom) (k : NodeKind) : Dom × Nat :=
  ({ d with kinds := d.kinds ++ [(d.fresh, k)], fresh := d.fresh + 1 }, d.fresh)

/-- The node's kind; an id absent from the store behaves like the `switch`
default (any other node type). -/
def kindOf (d : Dom) (n : Nat) : NodeKind :=
  ((d.kinds.find? (·.1 == n)).map (·.2)).getD (.element [] [])

def setNodeKind (d : Dom) (n : Nat) (k : NodeKind) : Dom :=
  { d with kinds := d.kinds.map (fun p => if p.1 == n then (p.1, k) else p) }

/-- `node.parentNode !== null` in the single-parent model. -/
def attached (d : Dom) (n : Nat) : Bool :=
  d.tree.contains n

/-- `parent.removeChild(node)` / `node.parentNode?.removeChild(node)`: drop
the node from the tree and record the removal.  A detached argument is a
no-op (the source only reaches this behind a `parentNode` check, except for
the collapse branch where a detached entry would throw in a real DOM; that
situation does not arise in the settled scenarios). -/
def removeChildD (d : Dom) (n : Nat) : Dom :=
  if attached d n then
    { d with tree := d.tree.erase n, trace := d.trace ++ [.remove n] }
  else d

/-- The surplus/collapse removal loops of `updateMany`. -/
def removeAll (d : Dom) (ns : List Nat) : Dom :=
  ns.foldl removeChildD d

/-- `old.parentNode?.replaceChild(n, old)`: swap `old` for `n` in the tree —
one removal and one insertion, atomically in the source, logged here in that
order. -/
def replaceChildD (d : Dom) (n old : Nat) : Dom :=
  if attached d old then
    { d with tree := d.tree.map (fun x => if x == old then n else x),
             trace := d.trace ++ [.remove old, .insert n] }
  else d

/-- Modelled from the spec: `cleanup(node)` (imported from the missing
`src/signal.ts`) releases the node's reconciler-registered listeners and
attached-output references.  Only the fact and order of its invocation matter
for the claims, so it is recorded as a trace event. -/
def cleanupD (d : Dom) (n : Nat) : Dom :=
  { d with trace := d.trace ++ [.cleanup n] }

/-- Insert `n` immediately before `ref` (`parent.insertBefore(n, ref)` with
`ref` a current child). -/
def insertBeforeList (tree : List Nat) (ref n : Nat) : List Nat :=
  match tree with
  | [] => []
  | x :: xs => if x == ref then n :: x :: xs else x :: insertBeforeList xs ref n

def insertBeforeD (d : Dom) (n ref : Nat) : Dom :=
  if attached d ref then
    { d with tree := insertBeforeList d.tree ref n, trace := d.trace ++ [.insert n] }
  else d

/-- Insert `n` immediately after `target`. -/
def insertAfterList (tree : List Nat) (target n : Nat) : List Nat :=
  match tree with
  | [] => []
  | x :: xs => if x == target then x :: n :: xs else x :: insertAfterList xs target n

/-- `target.parentNode?.insertBefore(node, target.nextSibling)` for a single
node. -/
def insertAfterOneD (d : Dom) (n target : Nat) : Dom :=
  if attached d target then
    { d with tree := insertAfterList d.tree target n, trace := d.trace ++ [.insert n] }
  else d

/-- A single DOM node or a node list, the two shapes `toNode`, `updateOne`
and `updateMany` trade in (`Node | NodeList`). -/
inductive NodeOrList where
  | one (n : Nat)
  | many (ns : List Nat)
deriving DecidableEq, Repr

def NodeOrList.toList : NodeOrList → List Nat
  | .one n => [n]
  | .many ns => ns

/-- `insertAfter(node, target)` from the source.  For a list, each child is
inserted before `target.nextSibling`, which is re-read after every insertion
— each child therefore lands immediately after `target`, so a multi-node
insert ends up in reverse order relative to the list. -/
def insertAfterD (d : Dom) (nd : NodeOrList) (target : Nat) : Dom :=
  match nd with
  | .one n => insertAfterOneD d n target
  | .many ns => ns.foldl (fun dd c => insertAfterOneD dd c target) d

/-- A renderable JS value, as consumed by `toNode`/`updateDOM`.  An array
carries a reference id so that the source's `nodes === value` /
`value === node` identity checks can be expressed; a `node` value is an
already-materialized DOM node (identity = its id). -/
inductive RVal where
  | arr (ref : Nat) (elems : List RVal)
  | null
  | node (n : Nat)
  | obj
  | func
  | str (s : String)
  | num (i : Int)
  | bool (b : Bool)
  | undefined

/-- `"" + value` string coercion for the values that reach it (primitives in
`toNode`; `nodeValue = value` assignments). -/
def jsToString : RVal → String
  | .str s => s
  | .num i => toString i
  | .bool b => if b then "true" else "false"
  | .undefined => "undefined"
  | .null => "null"
  | .func => "function"
  | .obj => "[object Object]"
  | .node _ => "[object Node]"
  | .arr _ _ => ""

/-- `Array.isArray(value)`. -/
def RVal.isArr : RVal → Bool
  | .arr _ _ => true
  | _ => false

/-- `typeof value !== "object"` (`typeof null === "object"`; arrays and DOM
nodes are objects; functions are `"function"`). -/
def typeofIsNotObject : RVal → Bool
  | .str _ => true
  | .num _ => true
  | .bool _ => true
  | .undefined => true
  | .func => true
  | .null => false
  | .arr _ _ => false
  | .node _ => false
  | .obj => false

mutual

/-- `toNode(value)`: arrays are converted recursively with produced node
lists flattened one level; an empty result becomes a single empty `Comment`;
`null` becomes an empty `Comment`; a DOM node passes through; any other
object or function throws; remaining primitives become a `Text` via string
coercion.  Created nodes are detached (no tree events). -/
def toNode (d : Dom) : RVal → Except String (Dom × NodeOrList)
  | .arr _ xs => do
    let (d1, res) ← toNodeList d xs
    match res with
    | [] =>
      let (d2, c) := newNode d1 (.comment "")
      pure (d2, .one c)
    | _ => pure (d1, .many res)
  | .null =>
    let (d1, c) := newNode d (.comment "")
    pure (d1, .one c)
  | .node n => pure (d, .one n)
  | .obj => throw "Objects are not valid elements."
  | .func => throw "Objects are not valid elements."
  | .str s =>
    let (d1, t) := newNode d (.text (jsToString (.str s)))
    pure (d1, .one t)
  | .num i =>
    let (d1, t) := newNode d (.text (jsToString (.num i)))
    pure (d1, .one t)
  | .bool b =>
    let (d1, t) := newNode d (.text (jsToString (.bool b)))
    pure (d1, .one t)
  | .undefined =>
    let (d1, t) := newNode d (.text (jsToString .undefined))
    pure (d1, .one t)

/-- The `for (const el of value)` loop of `toNode`'s array case: convert each
element in order and flatten produced node lists into `res`. -/
def toNodeList (d : Dom) : List RVal → Except String (Dom × List Nat)
  | [] => pure (d, [])
  | v :: vs => do
    let (d1, nd) ← toNode d v
    let (d2, rest) ← toNodeList d1 vs
    pure (d2, nd.toList ++ rest)

end

/-- `replaceNode(node, old)`: swap `old` out for the new node(s), running
`cleanup(old)` after the `replaceChild` swap.  In the list case the popped
last node is swapped in first; the remaining children are then inserted
behind `old.parentNode?.` — but `old` has just been detached, so the
optional chain skips every one of those insertions. -/
def replaceNode (d : Dom) (nd : NodeOrList) (old : Nat) :
    Except String (Dom × NodeOrList) :=
  match nd with
  | .one n =>
    let d1 := replaceChildD d n old
    let d2 := cleanupD d1 old
    pure (d2, .one n)
  | .many ns =>
    match ns.getLast? with
    | none => throw "Internal error: tried to insert an empty list of node"
    | some last =>
      let init := ns.dropLast
      let d1 := replaceChildD d last old
      let d2 := cleanupD d1 old
      let d3 := init.foldl
        (fun dd c => if attached dd old then insertBeforeD dd c last else dd) d2
      pure (d3, .many (init ++ [last]))

/-- `updateOwnerProperty(attr, value)`: mirror the attribute's new value into
the owner element's same-named property when that property name (via the
`attributeToProperty` table; an absent entry yields the property name
`"undefined"`) is currently present as an attribute. -/
def updateOwnerProperty (d : Dom) (name : String) (owner : Option Nat)
    (v : RVal) : Dom :=
  match owner with
  | none => d
  | some e =>
    let prop := ((d.attrToProperty.find? (·.1 == name)).map (·.2)).getD "undefined"
    match kindOf d e with
    | .element attrs props =>
      if attrs.contains prop then
        setNodeKind d e (.element attrs
          (if (props.find? (·.1 == prop)).isSome then
            props.map (fun p => if p.1 == prop then (p.1, jsToString v) else p)
          else props ++ [(prop, jsToString v)]))
      else d
    | _ => d

/-- `updateOne(node, value)`: identity no-op, array values replace, and
otherwise the `switch` on `nodeType`: attribute nodes update their value and
owner property, text nodes mutate in place for non-object values, comment
(empty-marker) nodes are a no-op for `null`, and everything else replaces. -/
def updateOne (d : Dom) (n : Nat) (v : RVal) : Except String (Dom × NodeOrList) :=
  -- if (value === node) return node;
  if (match v with | .node m => m == n | _ => false) then pure (d, .one n)
  else
    if v.isArr then do
      let (d1, nd) ← toNode d v
      replaceNode d1 nd n
    else
      match kindOf d n with
      | .attr name _ owner =>
        let d1 := setNodeKind d n (.attr name (jsToString v) owner)
        let d2 := updateOwnerProperty d1 name owner v
        pure (d2, .one n)
      | .text _ =>
        if typeofIsNotObject v then
          pure (setNodeKind d n (.text (jsToString v)), .one n)
        else do
          let (d1, nd) ← toNode d v
          replaceNode d1 nd n
      | .comment _ =>
        match v with
        | .null => pure (d, .one n)
        | _ => do
          let (d1, nd) ← toNode d v
          replaceNode d1 nd n
      | .element _ _ => do
        let (d1, nd) ← toNode d v
        replaceNode d1 nd n

/-- The element-by-element loop of `updateMany` (`for i < min`): reconcile
pairwise with `updateOne`, flattening any multi-node replacement into the
result (the source's `updated ?? nodes[i]` fallback is dead code —
`updateOne` always returns a node).  Returns the result so far plus the
unconsumed tails of both lists. -/
def updateLoop (d : Dom) :
    List Nat → List RVal → Except String (Dom × List Nat × List Nat × List RVal)
  | [], vs => pure (d, [], [], vs)
  | n :: ns, [] => pure (d, [], n :: ns, [])
  | n :: ns, v :: vs => do
    let (d1, u) ← updateOne d n v
    let (d2, res, lns, lvs) ← updateLoop d1 ns vs
    pure (d2, u.toList ++ res, lns, lvs)

/-- The trailing-insert loop of `updateMany` (`for min ≤ i < value.length`):
convert each surplus element and insert it after `res[res.length - 1]`, then
push it.  An empty `res` would make that anchor `undefined` (unreachable for
a non-empty `NodeList` target with a non-empty new value). -/
def insertLoop (d : Dom) :
    List RVal → List Nat → Except String (Dom × List Nat)
  | [], res => pure (d, res)
  | v :: vs, res => do
    let (d1, nd) ← toNode d v
    match res.getLast? with
    | none => throw "TypeError: cannot read properties of undefined"
    | some anchor =>
      let d2 := insertAfterD d1 nd anchor
      insertLoop d2 vs (res ++ nd.toList)

/-- `updateMany(nodes, value)`: reference-identical value is a no-op; a
non-array value shifts off the first node, returns the shortened list
untouched when that node is detached, and otherwise removes the remaining
old nodes and replaces the first node with `toNode(value)`; an array value
runs the pairwise loop, removes surplus old nodes (no cleanup), and converts
and inserts surplus new elements after the last reconciled node.  `ref` is
the target array's identity. -/
def updateMany (d : Dom) (ref : Nat) (nodes : List Nat) (v : RVal) :
    Except String (Dom × NodeOrList) :=
  match v with
  | .arr r vs =>
    if r == ref then
      -- if (nodes === value) return nodes;
      pure (d, .many nodes)
    else do
      let (d1, res, leftoverNodes, leftoverVals) ← updateLoop d nodes vs
      let d2 := removeAll d1 leftoverNodes
      let (d3, res2) ← insertLoop d2 leftoverVals res
      pure (d3, .many res2)
  | _ =>
    match nodes with
    | [] => throw "TypeError: cannot read properties of undefined"
    | first :: rest =>
      -- const first = nodes.shift()!; const parent = first.parentNode;
      if attached d first then do
        let d1 := removeAll d rest
        let (d2, nd) ← toNode d1 v
        replaceNode d2 nd first
      else
        -- if (!parent) return nodes;
        pure (d, .many rest)

/-- A reconciliation target: a single node or a node list (with its array
identity). -/
inductive DomTarget where
  | node (n : Nat)
  | list (ref : Nat) (ns : List Nat)

/-- `updateDOM(target, value)`. -/
def updateDOM (d : Dom) (t : DomTarget) (v : RVal) :
    Except String (Dom × NodeOrList) :=
  match t with
  | .node n => updateOne d n v
  | .list ref ns => updateMany d ref ns v

/-- An empty document. -/
def emptyDom : Dom :=
  { kinds := [], tree := [], trace := [], attrToProperty := [], fresh := 0 }

/-- A document holding exactly the given nodes, attached as the given tree,
with the id allocator already past every listed id. -/
def domOf (ks : List (Nat × NodeKind)) (tree : List Nat) : Dom :=
  { kinds := ks, tree := tree, trace := [], attrToProperty := [],
    fresh := ks.foldl (fun m p => max m (p.1 + 1)) 0 }

def isTextKind : NodeKind → Bool
  | .text _ => true
  | _ => false

def isCommentKind : NodeKind → Bool
  | .comment _ => true
  | _ => false

/-- Pairwise "node `n` is what rendering value `v` produced" for the values
whose conversion yields exactly one node: a primitive renders to a text node,
`null` to an empty comment marker, and a DOM-node value is that node itself. -/
def rendersOneB (d : Dom) (n : Nat) (v : RVal) : Bool :=
  match v with
  | .str _ => isTextKind (kindOf d n)
  | .num _ => isTextKind (kindOf d n)
  | .bool _ => isTextKind (kindOf d n)
  | .undefined => isTextKind (kindOf d n)
  | .null => isCommentKind (kindOf d n)
  | .node m => m == n
  | _ => false

/-- A node list rendered one-node-per-element from a value array. -/
def rendersListB (d : Dom) : List Nat → List RVal → Bool
  | [], [] => true
  | n :: ns, x :: xs => rendersOneB d n x && rendersListB d ns xs
  | _, _ => false

/-!
## Claim theorems
-/

/-- C5: for `s = createStore({key:"value"})`, materializing `t = s.key`
(the property read creates a child signal with the write-back listener) and
then calling `s.set({key:"baz"})` delegates the whole-store write to that
child, so `t()` — the materialized child's value — reads `"baz"` afterward. -/
theorem C5_whole_store_write_reaches_materialized_child :
    createStore (.obj [("key", .str "value")]) =
      .ok (.store (.obj [("key", .str "value")]) []) ∧
    handler_get (.obj [("key", .str "value")]) [] "key" =
      ([("key", .sig (.str "value") true)], some (.sig (.str "value") true)) ∧
    storePrototype_set
        (.store (.obj [("key", .str "value")]) [("key", .sig (.str "value") true)])
        (.inl (.obj [("key", .str "baz")])) =
      .ok (.store (.obj [("key", .str "baz")]) [("key", .sig (.str "baz") true)],
        true) ∧
    reactiveValue (.sig (.str "baz") true) = .str "baz" := by
  refine ⟨rfl, ?_, ?_, rfl⟩
  · simp [handler_get, childGet, objGetF, childAdd, List.find?]
  · simp [storePrototype_set, reactiveSet, pass1, pass2, objGetF, childGet,
      applyWriteback, objSetVal, objSetF, objGet1, List.find?, reactiveValue,
      instBEqJSVal, JSVal.beq, JSVal.beqFields, childPut]
    rfl

/-- C1: evaluation of `storePrototype.set` at the failing input of the claim.
With both children of `{a:1, b:2}` materialized, `set({a:10, b:20})` updates
child `a` (setting `hasChanged` to `true`) and then, because
`hasChanged ||= this[key].set(value[key])` short-circuits, never delegates to
child `b` in either pass: the returned store holds `b = 20` in its underlying
value while the materialized child `b` still holds `2`. -/
theorem C1_short_circuit_skips_second_child :
    storePrototype_set
        (.store (.obj [("a", .num 1), ("b", .num 2)])
          [("a", .sig (.num 1) true), ("b", .sig (.num 2) true)])
        (.inl (.obj [("a", .num 10), ("b", .num 20)])) =
      .ok (.store (.obj [("a", .num 10), ("b", .num 20)])
        [("a", .sig (.num 10) true), ("b", .sig (.num 2) true)], true) ∧
    objGet1 (.obj [("a", .num 10), ("b", .num 20)]) "b" = .num 20 ∧
    reactiveValue (.sig (.num 2) true) = .num 2 ∧
    JSVal.num 2 ≠ JSVal.num 20 := by
  refine ⟨?_, rfl, rfl, by simp⟩
  simp [storePrototype_set, reactiveSet, pass1, pass2, objGetF, childGet,
    applyWriteback, objSetVal, objSetF, objGet1, List.find?, reactiveValue,
    instBEqJSVal, JSVal.beq, JSVal.beqFields, childPut]
  rfl

/-- C2: evaluation of the proxy `set` trap at the failing input.  Writing a
never-materialized key through the proxy (`s.other = 5` on
`createStore({key:"value"})`) caches a brand-new child signal holding `5` but
leaves the underlying value untouched (and installs no write-back listener),
so after the operation completes the materialized child `other` holds `5`
while `store.value.other` is `undefined` — the invariant
`store.value[k] === child.value` does not hold. -/
theorem C2_proxy_write_leaves_child_and_value_inconsistent :
    handler_set (.obj [("key", .str "value")]) [] "other" (.inl (.num 5)) =
      .ok (.obj [("key", .str "value")], [("other", .sig (.num 5) false)]) ∧
    reactiveValue (.sig (.num 5) false) = .num 5 ∧
    objGet1 (.obj [("key", .str "value")]) "other" = .undefined ∧
    JSVal.undefined ≠ JSVal.num 5 := by
  refine ⟨?_, rfl, ?_, by simp⟩
  · simp [handler_set, childGet, childAdd, List.find?]
    rfl
  · simp [objGet1, objGetF, List.find?]

/-- C8: `createStore` throws for every initial value that is not a non-null
object, and `storePrototype.set` throws for every resolved replacement
(direct value or updater result) that is not a non-null object; the error is
returned before any pass over children or any value replacement, so no
mutation occurs. -/
theorem C8_non_object_values_throw :
    (∀ v : JSVal, isObjVal v = false →
      createStore v = .error "The initial value of a store must be an object") ∧
    (∀ (val : JSVal) (cs : List (String × Reactive)) (v : JSVal),
      isObjVal v = false →
      storePrototype_set (.store val cs) (.inl v) =
        .error "The value of a store must be an object") ∧
    (∀ (val : JSVal) (cs : List (String × Reactive)) (f : JSVal → JSVal),
      isObjVal (f val) = false →
      storePrototype_set (.store val cs) (.inr f) =
        .error "The value of a store must be an object") := by
  refine ⟨?_, ?_, ?_⟩
  · intro v h
    simp [createStore, h]
    rfl
  · intro val cs v h
    cases v <;> simp_all [storePrototype_set, reactiveSet, isObjVal] <;> rfl
  · intro val cs f h
    have hval : reactiveValue (.store val cs) = val := rfl
    cases hfv : f val <;>
      simp_all [storePrototype_set, reactiveSet, isObjVal, hval] <;> rfl

/-- C8 witness: the universal theorem applied at `createStore(0)` (the test
file's own input), a direct `set(null)` and an updater resolving to a
number. -/
theorem C8_non_object_values_throw_witness :
    createStore (JSVal.num 0) =
      .error "The initial value of a store must be an object" ∧
    storePrototype_set (.store (.obj []) []) (.inl .null) =
      .error "The value of a store must be an object" ∧
    storePrototype_set (.store (.obj []) []) (.inr fun _ => .num 7) =
      .error "The value of a store must be an object" :=
  ⟨C8_non_object_values_throw.1 _ rfl,
   C8_non_object_values_throw.2.1 _ _ _ rfl,
   C8_non_object_values_throw.2.2 _ _ _ rfl⟩

/-- C3: evaluation of `updateMany` at the failing input of the claim.  For an
attached one-node list and the empty-array new value, the pairwise loop does
nothing, the surplus loop removes the single old node, and the trailing
insert loop has nothing to insert: the result is the empty node sequence —
its length does equal the new value's length, but it is not the non-empty
anchored sequence the claim (and the source's own `NodeList` contract and
closing comment) promises. -/
theorem C3_empty_array_value_produces_empty_list :
    updateMany (domOf [(1, .text "a")] [1]) 0 [1] (.arr 7 []) =
      .ok ({ domOf [(1, .text "a")] [1] with tree := [], trace := [.remove 1] },
        .many []) ∧
    (NodeOrList.many []).toList.length = 0 :=
  ⟨rfl, rfl⟩

/-- C10: for a node-list target whose first node is detached, `updateMany`
with a non-array value shifts off the first node and returns the remainder
untouched: no conversion of the value, no replacement, no removal, no
cleanup (the document is returned unchanged). -/
theorem C10_detached_list_nonarray_returns_rest
    (d : Dom) (ref first : Nat) (rest : List Nat) (v : RVal)
    (h : attached d first = false) (hv : v.isArr = false) :
    updateMany d ref (first :: rest) v = .ok (d, .many rest) := by
  cases v <;> simp_all [updateMany, RVal.isArr] <;> rfl

/-- C10 witness: a detached one-element list with a string new value yields
the empty sequence and an unchanged document. -/
theorem C10_detached_list_nonarray_returns_rest_witness :
    attached (domOf [(1, .text "a")] []) 1 = false ∧
    (RVal.str "x").isArr = false ∧
    updateMany (domOf [(1, .text "a")] []) 0 [1] (.str "x") =
      .ok (domOf [(1, .text "a")] [], .many []) :=
  ⟨rfl, rfl, C10_detached_list_nonarray_returns_rest _ 0 _ _ _ rfl rfl⟩

theorem bindE_ok {ε α β : Type} (a : α) (f : α → Except ε β) :
    (Except.ok a : Except ε α).bind f = f a := rfl

theorem bindE_error {ε α β : Type} (e : ε) (f : α → Except ε β) :
    (Except.error e : Except ε α).bind f = .error e := rfl

theorem bindM_ok {ε α β : Type} (a : α) (f : α → Except ε β) :
    ((Except.ok a : Except ε α) >>= f) = f a := rfl

theorem bindM_error {ε α β : Type} (e : ε) (f : α → Except ε β) :
    ((Except.error e : Except ε α) >>= f) = .error e := rfl

theorem pureE {ε α : Type} (a : α) : (pure a : Except ε α) = .ok a := rfl

theorem mapE_ok {ε α β : Type} (f : α → β) (a : α) :
    Except.map f (Except.ok a : Except ε α) = .ok (f a) := rfl

theorem mapE_error {ε α β : Type} (f : α → β) (e : ε) :
    Except.map f (Except.error e : Except ε α) = .error e := rfl

/-- C7: the full case analysis of `toNode`.  An array converts element by
element with produced node lists flattened into one ordered sequence (the
conversion of a concatenation is the concatenation of the conversions), an
empty array and `null` each yield a single fresh empty comment marker (never
a zero-length sequence), an existing DOM node passes through with the
document unchanged, plain objects and functions throw the invalid-renderable
error, and every remaining primitive becomes a fresh text node via string
coercion. -/
theorem C7_toNode_case_analysis :
    (∀ (d : Dom) (k : NodeKind),
      newNode d k =
        ({ d with kinds := d.kinds ++ [(d.fresh, k)], fresh := d.fresh + 1 },
          d.fresh)) ∧
    (∀ (d : Dom) (xs ys : List RVal),
      toNodeList d (xs ++ ys) =
        (toNodeList d xs).bind fun p =>
          (toNodeList p.1 ys).map fun q => (q.1, p.2 ++ q.2)) ∧
    (∀ (d : Dom) (r : Nat) (xs : List RVal),
      toNode d (.arr r xs) =
        (toNodeList d xs).bind fun p =>
          match p.2 with
          | [] => Except.ok ((newNode p.1 (.comment "")).1, .one p.1.fresh)
          | _ => Except.ok (p.1, .many p.2)) ∧
    (∀ d : Dom,
      toNode d .null = .ok ((newNode d (.comment "")).1, .one d.fresh)) ∧
    (∀ (d : Dom) (r : Nat),
      toNode d (.arr r []) = .ok ((newNode d (.comment "")).1, .one d.fresh)) ∧
    (∀ (d : Dom) (n : Nat), toNode d (.node n) = .ok (d, .one n)) ∧
    (∀ d : Dom, toNode d .obj = .error "Objects are not valid elements.") ∧
    (∀ d : Dom, toNode d .func = .error "Objects are not valid elements.") ∧
    (∀ (d : Dom) (s : String),
      toNode d (.str s) =
        .ok ((newNode d (.text (jsToString (.str s)))).1, .one d.fresh)) ∧
    (∀ (d : Dom) (i : Int),
      toNode d (.num i) =
        .ok ((newNode d (.text (jsToString (.num i)))).1, .one d.fresh)) ∧
    (∀ (d : Dom) (b : Bool),
      toNode d (.bool b) =
        .ok ((newNode d (.text (jsToString (.bool b)))).1, .one d.fresh)) ∧
    (∀ d : Dom,
      toNode d .undefined =
        .ok ((newNode d (.text (jsToString .undefined))).1, .one d.fresh)) := by
  refine ⟨fun d k => rfl, ?_, ?_, fun d => rfl, fun d r => rfl, fun d n => rfl,
    fun d => rfl, fun d => rfl, fun d s => rfl, fun d i => rfl, fun d b => rfl,
    fun d => rfl⟩
  · intro d xs ys
    induction xs generalizing d with
    | nil =>
      cases h : toNodeList d ys <;>
        simp [toNodeList, pureE, bindE_ok, bindE_error, mapE_ok, mapE_error, h]
    | cons x xs ih =>
      cases hx : toNode d x with
      | error e =>
        simp [toNodeList, hx, bindM_error, bindE_error]
      | ok p =>
        obtain ⟨d1, nd⟩ := p
        have h2 := ih d1
        cases h1 : toNodeList d1 xs with
        | error e1 =>
          rw [h1, bindE_error] at h2
          simp [toNodeList, hx, h1, h2, bindM_ok, bindM_error, bindE_error,
            bindE_ok]
        | ok q =>
          obtain ⟨d2, a⟩ := q
          rw [h1, bindE_ok] at h2
          cases h3 : toNodeList d2 ys with
          | error e3 =>
            rw [h3, mapE_error] at h2
            simp [toNodeList, hx, h1, h2, h3, bindM_ok, bindM_error, bindE_ok,
              bindE_error, mapE_error]
          | ok w =>
            obtain ⟨d3, b⟩ := w
            rw [h3, mapE_ok] at h2
            simp [toNodeList, hx, h1, h2, h3, bindM_ok, bindE_ok, mapE_ok,
              pureE, List.append_assoc]
  · intro d r xs
    cases h : toNodeList d xs with
    | error e => simp [toNode, h, bindE_error, bindM_error]
    | ok p =>
      obtain ⟨d1, res⟩ := p
      cases res <;> simp [toNode, h, bindE_ok, bindM_ok, pureE, newNode]

/-- C4 counterexample: a node-list shrink (three attached text nodes
reconciled against a one-element array) detaches the two surplus trailing
nodes via `parentNode?.removeChild` alone — the resulting trace contains
their removals but not a single `cleanup` invocation, refuting "that node's
cleanup path is invoked exactly once" for detached surplus nodes. -/
theorem C4_surplus_nodes_removed_without_cleanup :
    updateMany (domOf [(1, .text "a"), (2, .text "b"), (3, .text "c")] [1, 2, 3])
        0 [1, 2, 3] (.arr 9 [.str "a"]) =
      .ok ({ domOf [(1, .text "a"), (2, .text "b"), (3, .text "c")] [1, 2, 3] with
               tree := [1], trace := [.remove 2, .remove 3] }, .many [1]) ∧
    DomEvent.remove 2 ∈ [DomEvent.remove 2, DomEvent.remove 3] ∧
    [DomEvent.remove 2, DomEvent.remove 3].count (DomEvent.cleanup 2) = 0 :=
  ⟨rfl, by decide, by decide⟩

theorem removeAll_trace_mem (ns : List Nat) (d : Dom) (e : DomEvent)
    (h : e ∈ (removeAll d ns).trace) :
    e ∈ d.trace ∨ ∃ m, e = DomEvent.remove m := by
  induction ns generalizing d with
  | nil => exact Or.inl h
  | cons n ns ih =>
    have step : removeAll d (n :: ns) = removeAll (removeChildD d n) ns := rfl
    rw [step] at h
    rcases ih (removeChildD d n) h with h1 | h1
    · by_cases hn : attached d n = true
      · simp only [removeChildD, hn, if_true, List.mem_append] at h1
        rcases h1 with h1 | h1
        · exact Or.inl h1
        · simp only [List.mem_singleton] at h1
          exact Or.inr ⟨n, h1⟩
      · simp only [removeChildD, hn] at h1
        rw [if_neg] at h1
        · exact Or.inl h1
        · simp [hn]
    · exact Or.inr h1

/-- C4, amended: replacing an attached node with a single new node invokes
`cleanup` on the old node exactly once, but only *after* the `replaceChild`
swap (which removes the old node and inserts the new one); and the surplus
trailing nodes removed when a node-list shrinks are detached with no cleanup
at all — every event the removal loop appends is a removal. -/
theorem C4_amended_cleanup_once_after_swap_and_none_on_surplus :
    (∀ (d : Dom) (n old : Nat), attached d old = true →
      replaceNode d (.one n) old =
        .ok ({ d with
                 tree := d.tree.map fun x => if x == old then n else x,
                 trace := d.trace ++ [.remove old, .insert n, .cleanup old] },
          .one n)) ∧
    (∀ (d : Dom) (ns : List Nat) (e : DomEvent),
      e ∈ (removeAll d ns).trace → e ∈ d.trace ∨ ∃ m, e = DomEvent.remove m) := by
  constructor
  · intro d n old h
    simp [replaceNode, replaceChildD, cleanupD, h, pureE]
  · intro d ns e h
    exact removeAll_trace_mem ns d e h

/-- C4 amended witness: the replacement half applied to a one-node document
(the trace shows remove-insert-cleanup in that order), and the surplus half
applied to the removal of that node. -/
theorem C4_amended_witness :
    attached (domOf [(1, .text "a")] [1]) 1 = true ∧
    replaceNode (domOf [(1, .text "a")] [1]) (.one 5) 1 =
      .ok ({ domOf [(1, .text "a")] [1] with
               tree := [5],
               trace := [.remove 1, .insert 5, .cleanup 1] }, .one 5) ∧
    (DomEvent.remove 1 ∈ (domOf [(1, .text "a")] [1]).trace ∨
      ∃ m, DomEvent.remove 1 = DomEvent.remove m) :=
  ⟨rfl,
   C4_amended_cleanup_once_after_swap_and_none_on_surplus.1
     (domOf [(1, .text "a")] [1]) 5 1 rfl,
   C4_amended_cleanup_once_after_swap_and_none_on_surplus.2
     (domOf [(1, .text "a")] [1]) [1] (DomEvent.remove 1) (by decide)⟩

/-- C6 counterexample: collapsing an attached two-node list against the
primitive `"x"` replaces the first node (a text node) with a freshly created
text node (id `3`) and cleans the old one up, while the single-node rule the
claim prescribes (`updateOne` on the collapsed first node) would have
mutated node `1` in place and kept its identity. -/
theorem C6_collapse_replaces_text_first_node :
    updateMany (domOf [(1, .text "a"), (2, .text "b")] [1, 2]) 0 [1, 2]
        (.str "x") =
      .ok ({ domOf [(1, .text "a"), (2, .text "b")] [1, 2] with
               kinds := [(1, .text "a"), (2, .text "b"), (3, .text "x")],
               tree := [3],
               trace := [.remove 2, .remove 1, .insert 3, .cleanup 1],
               fresh := 4 }, .one 3) ∧
    updateOne { domOf [(1, .text "a"), (2, .text "b")] [1, 2] with
                  tree := [1], trace := [.remove 2] } 1 (.str "x") =
      .ok ({ domOf [(1, .text "a"), (2, .text "b")] [1, 2] with
               kinds := [(1, .text "x"), (2, .text "b")],
               tree := [1], trace := [.remove 2] }, .one 1) ∧
    (3 : Nat) ≠ 1 :=
  ⟨rfl, rfl, by decide⟩

theorem removeAll_fresh (ns : List Nat) (d : Dom) :
    (removeAll d ns).fresh = d.fresh := by
  induction ns generalizing d with
  | nil => rfl
  | cons n ns ih =>
    have step : removeAll d (n :: ns) = removeAll (removeChildD d n) ns := rfl
    rw [step, ih]
    by_cases h : attached d n = true <;> simp [removeChildD, h]

theorem removeAll_attached (ns : List Nat) (d : Dom) (x : Nat)
    (hx : attached d x = true) (hn : x ∉ ns) :
    attached (removeAll d ns) x = true := by
  induction ns generalizing d with
  | nil => exact hx
  | cons n ns ih =>
    have step : removeAll d (n :: ns) = removeAll (removeChildD d n) ns := rfl
    rw [step]
    refine ih (removeChildD d n) ?_ fun hmem => hn (List.mem_cons_of_mem n hmem)
    have hxn : x ≠ n := fun e => hn (e ▸ List.mem_cons_self n ns)
    have hx' : x ∈ d.tree := by simpa [attached] using hx
    by_cases h : attached d n = true
    · have hn' : n ∈ d.tree := by simpa [attached] using h
      simp only [removeChildD, attached] at *
      simp [hn', List.mem_erase_of_ne hxn, hx']
    · simpa [removeChildD, h] using hx

/-- C6, amended: for an attached first node, `updateMany` with a non-array
value (here an arbitrary string) collapses the list to its first node by
removing the remaining old nodes, and then always *replaces* that first node
with the freshly converted node — `replaceNode(toNode(value), first)` — even
when the first node is a text node that the single-node rule would have
updated in place: the returned node is the newly allocated `d.fresh`,
distinct from the old first node, whose cleanup is invoked after the swap. -/
theorem C6_amended_collapse_always_replaces
    (d : Dom) (ref first : Nat) (rest : List Nat) (s : String)
    (h1 : attached d first = true) (h2 : first ∉ rest) (h3 : first < d.fresh) :
    ∃ d2, updateMany d ref (first :: rest) (.str s) = .ok (d2, .one d.fresh) ∧
      d.fresh ≠ first ∧
      d2.trace = (removeAll d rest).trace ++
        [.remove first, .insert d.fresh, .cleanup first] := by
  have hfr := removeAll_fresh rest d
  have hat := removeAll_attached rest d first h1 h2
  have e : updateMany d ref (first :: rest) (.str s) =
      if attached d first = true then
        replaceNode (newNode (removeAll d rest) (.text (jsToString (.str s)))).1
          (.one (removeAll d rest).fresh) first
      else pure (d, .many rest) := rfl
  rw [e, if_pos h1, hfr]
  have hat2 : attached
      (newNode (removeAll d rest) (.text (jsToString (.str s)))).1 first =
      true := hat
  refine ⟨cleanupD (replaceChildD
      (newNode (removeAll d rest) (.text (jsToString (.str s)))).1
      d.fresh first) first, rfl, by omega, ?_⟩
  simp only [cleanupD, replaceChildD, hat2, if_true]
  simp [newNode, List.append_assoc]

/-- C6 amended witness: the two-node scenario of the counterexample, through
the amended statement. -/
theorem C6_amended_collapse_always_replaces_witness :
    ∃ d2,
      updateMany (domOf [(1, .text "a"), (2, .text "b")] [1, 2]) 0 [1, 2]
        (.str "x") = .ok (d2, .one (domOf [(1, .text "a"), (2, .text "b")] [1, 2]).fresh) ∧
      (domOf [(1, .text "a"), (2, .text "b")] [1, 2]).fresh ≠ 1 ∧
      d2.trace = (removeAll (domOf [(1, .text "a"), (2, .text "b")] [1, 2]) [2]).trace ++
        [.remove 1, .insert (domOf [(1, .text "a"), (2, .text "b")] [1, 2]).fresh,
          .cleanup 1] :=
  C6_amended_collapse_always_replaces
    (domOf [(1, .text "a"), (2, .text "b")] [1, 2]) 0 1 [2] "x" rfl
    (by decide) (by decide)

/-- C9 counterexample: a list rendered from `[["a","b"], "c"]` (three text
nodes, the first two from the flattened inner array) and then attached, when
updated with the very values it was rendered from, does not keep its node
identities: position 0 is reconciled against the inner *array* value, so
node `0` is replaced by two fresh nodes and position 1 drifts; the original
first node no longer occurs in the result. -/
theorem C9_rendered_list_update_alters_identities :
    toNode emptyDom (.arr 1 [.arr 2 [.str "a", .str "b"], .str "c"]) =
      .ok ({ emptyDom with
               kinds := [(0, .text "a"), (1, .text "b"), (2, .text "c")],
               fresh := 3 }, .many [0, 1, 2]) ∧
    updateMany (domOf [(0, .text "a"), (1, .text "b"), (2, .text "c")] [0, 1, 2])
        0 [0, 1, 2] (.arr 1 [.arr 2 [.str "a", .str "b"], .str "c"]) =
      .ok ({ domOf [(0, .text "a"), (1, .text "b"), (2, .text "c")] [0, 1, 2] with
               kinds := [(0, .text "a"), (1, .text "c"), (2, .text "c"),
                 (3, .text "a"), (4, .text "b")],
               tree := [4, 1],
               trace := [.remove 0, .insert 4, .cleanup 0, .remove 2],
               fresh := 5 }, .many [3, 4, 1]) ∧
    (0 : Nat) ∉ [3, 4, 1] :=
  ⟨rfl, rfl, by decide⟩

theorem find?_setKind (l : List (Nat × NodeKind)) (m n : Nat) (k : NodeKind) :
    (l.map (fun p => if p.1 == m then (p.1, k) else p)).find? (·.1 == n) =
      (l.find? (·.1 == n)).map (fun p => if p.1 == m then (p.1, k) else p) := by
  have hcomp : ((fun x => x.1 == n) ∘
      fun p : Nat × NodeKind => if p.1 == m then (p.1, k) else p) =
      fun x : Nat × NodeKind => x.1 == n := by
    funext p
    by_cases hm : p.1 = m <;> simp [hm]
  rw [List.find?_map, hcomp]

theorem kindOf_setNodeKind (d : Dom) (m n : Nat) (k : NodeKind) :
    kindOf (setNodeKind d m k) n =
      if n = m then
        (if (d.kinds.find? (·.1 == n)).isSome then k else kindOf d n)
      else kindOf d n := by
  simp only [kindOf, setNodeKind, find?_setKind]
  cases hf : d.kinds.find? (·.1 == n) with
  | none => simp [hf]
  | some p =>
    have hp : (p.1 == n) = true := by
      have := List.find?_some hf
      simpa using this
    have hpn : p.1 = n := by simpa using hp
    by_cases hnm : n = m
    · subst hnm
      simp [hf, hpn]
    · have hpm : (p.1 == m) = false := by simp [hpn, hnm]
      simp [hf, hpm, hpn, hnm]

theorem isCommentKind_of_isTextKind (q : NodeKind) (h : isTextKind q = true) :
    isCommentKind q = false := by
  cases q <;> simp_all [isTextKind, isCommentKind]

theorem rendersOneB_setNodeKind_text (d : Dom) (m n : Nat) (s : String)
    (hm : isTextKind (kindOf d m) = true) (v : RVal) :
    rendersOneB (setNodeKind d m (.text s)) n v = rendersOneB d n v := by
  have key : isTextKind (kindOf (setNodeKind d m (.text s)) n) =
      isTextKind (kindOf d n) := by
    rw [kindOf_setNodeKind]
    by_cases hnm : n = m
    · subst hnm
      cases hsome : (d.kinds.find? (·.1 == n)).isSome
      · simp [hsome]
      · have hts : isTextKind (NodeKind.text s) = true := rfl
        simp [hsome, hts, hm]
    · simp [hnm]
  have key2 : isCommentKind (kindOf (setNodeKind d m (.text s)) n) =
      isCommentKind (kindOf d n) := by
    rw [kindOf_setNodeKind]
    by_cases hnm : n = m
    · subst hnm
      cases hsome : (d.kinds.find? (·.1 == n)).isSome
      · simp [hsome]
      · have hcs : isCommentKind (NodeKind.text s) = false := rfl
        simp [hsome, hcs, isCommentKind_of_isTextKind _ hm]
    · simp [hnm]
  cases v <;> simp [rendersOneB, key, key2]

theorem rendersListB_setNodeKind_text (d : Dom) (m : Nat) (s : String)
    (hm : isTextKind (kindOf d m) = true) :
    ∀ (ns : List Nat) (xs : List RVal),
      rendersListB (setNodeKind d m (.text s)) ns xs = rendersListB d ns xs := by
  intro ns
  induction ns with
  | nil => intro xs; cases xs <;> rfl
  | cons n ns ih =>
    intro xs
    cases xs with
    | nil => rfl
    | cons x xs =>
      simp [rendersListB, rendersOneB_setNodeKind_text d m n s hm x, ih xs]

theorem updateLoop_renders :
    ∀ (ns : List Nat) (xs : List RVal) (d : Dom),
      rendersListB d ns xs = true →
      ∃ d2, updateLoop d ns xs = .ok (d2, ns, [], []) ∧
        d2.tree = d.tree ∧ d2.trace = d.trace ∧ d2.fresh = d.fresh := by
  intro ns
  induction ns with
  | nil =>
    intro xs d h
    cases xs with
    | nil => exact ⟨d, rfl, rfl, rfl, rfl⟩
    | cons x xs => simp [rendersListB] at h
  | cons n ns ih =>
    intro xs d h
    cases xs with
    | nil => simp [rendersListB] at h
    | cons x xs =>
      simp only [rendersListB, Bool.and_eq_true] at h
      obtain ⟨h1, h2⟩ := h
      cases x with
      | node m =>
        have hm : (m == n) = true := by simpa [rendersOneB] using h1
        have hstep : updateOne d n (.node m) = .ok (d, .one n) := by
          simp [updateOne, hm, pureE]
        obtain ⟨d2, he, ht, htr, hf⟩ := ih xs d h2
        refine ⟨d2, ?_, ht, htr, hf⟩
        simp [updateLoop, hstep, he, bindM_ok, pureE, NodeOrList.toList]
      | null =>
        have hcomm : isCommentKind (kindOf d n) = true := by
          simpa [rendersOneB] using h1
        obtain ⟨q, hq⟩ : ∃ q, kindOf d n = .comment q := by
          cases hk : kindOf d n <;> simp_all [isCommentKind]
        have hstep : updateOne d n .null = .ok (d, .one n) := by
          simp [updateOne, RVal.isArr, hq, pureE]
        obtain ⟨d2, he, ht, htr, hf⟩ := ih xs d h2
        refine ⟨d2, ?_, ht, htr, hf⟩
        simp [updateLoop, hstep, he, bindM_ok, pureE, NodeOrList.toList]
      | str s =>
        have htext : isTextKind (kindOf d n) = true := by
          simpa [rendersOneB] using h1
        obtain ⟨q, hq⟩ : ∃ q, kindOf d n = .text q := by
          cases hk : kindOf d n <;> simp_all [isTextKind]
        have hstep : updateOne d n (.str s) =
            .ok (setNodeKind d n (.text (jsToString (.str s))), .one n) := by
          simp [updateOne, RVal.isArr, hq, typeofIsNotObject, pureE]
        have h2' : rendersListB (setNodeKind d n (.text (jsToString (.str s)))) ns xs
            = true := by
          rw [rendersListB_setNodeKind_text d n _ htext]
          exact h2
        obtain ⟨d2, he, ht, htr, hf⟩ :=
          ih xs (setNodeKind d n (.text (jsToString (.str s)))) h2'
        refine ⟨d2, ?_, by rw [ht]; rfl, by rw [htr]; rfl, by rw [hf]; rfl⟩
        simp [updateLoop, hstep, he, bindM_ok, pureE, NodeOrList.toList]
      | num i =>
        have htext : isTextKind (kindOf d n) = true := by
          simpa [rendersOneB] using h1
        obtain ⟨q, hq⟩ : ∃ q, kindOf d n = .text q := by
          cases hk : kindOf d n <;> simp_all [isTextKind]
        have hstep : updateOne d n (.num i) =
            .ok (setNodeKind d n (.text (jsToString (.num i))), .one n) := by
          simp [updateOne, RVal.isArr, hq, typeofIsNotObject, pureE]
        have h2' : rendersListB (setNodeKind d n (.text (jsToString (.num i)))) ns xs
            = true := by
          rw [rendersListB_setNodeKind_text d n _ htext]
          exact h2
        obtain ⟨d2, he, ht, htr, hf⟩ :=
          ih xs (setNodeKind d n (.text (jsToString (.num i)))) h2'
        refine ⟨d2, ?_, by rw [ht]; rfl, by rw [htr]; rfl, by rw [hf]; rfl⟩
        simp [updateLoop, hstep, he, bindM_ok, pureE, NodeOrList.toList]
      | bool b =>
        have htext : isTextKind (kindOf d n) = true := by
          simpa [rendersOneB] using h1
        obtain ⟨q, hq⟩ : ∃ q, kindOf d n = .text q := by
          cases hk : kindOf d n <;> simp_all [isTextKind]
        have hstep : updateOne d n (.bool b) =
            .ok (setNodeKind d n (.text (jsToString (.bool b))), .one n) := by
          simp [updateOne, RVal.isArr, hq, typeofIsNotObject, pureE]
        have h2' : rendersListB (setNodeKind d n (.text (jsToString (.bool b)))) ns xs
            = true := by
          rw [rendersListB_setNodeKind_text d n _ htext]
          exact h2
        obtain ⟨d2, he, ht, htr, hf⟩ :=
          ih xs (setNodeKind d n (.text (jsToString (.bool b)))) h2'
        refine ⟨d2, ?_, by rw [ht]; rfl, by rw [htr]; rfl, by rw [hf]; rfl⟩
        simp [updateLoop, hstep, he, bindM_ok, pureE, NodeOrList.toList]
      | undefined =>
        have htext : isTextKind (kindOf d n) = true := by
          simpa [rendersOneB] using h1
        obtain ⟨q, hq⟩ : ∃ q, kindOf d n = .text q := by
          cases hk : kindOf d n <;> simp_all [isTextKind]
        have hstep : updateOne d n .undefined =
            .ok (setNodeKind d n (.text (jsToString .undefined)), .one n) := by
          simp [updateOne, RVal.isArr, hq, typeofIsNotObject, pureE]
        have h2' : rendersListB (setNodeKind d n (.text (jsToString .undefined))) ns xs
            = true := by
          rw [rendersListB_setNodeKind_text d n _ htext]
          exact h2
        obtain ⟨d2, he, ht, htr, hf⟩ :=
          ih xs (setNodeKind d n (.text (jsToString .undefined))) h2'
        refine ⟨d2, ?_, by rw [ht]; rfl, by rw [htr]; rfl, by rw [hf]; rfl⟩
        simp [updateLoop, hstep, he, bindM_ok, pureE, NodeOrList.toList]
      | arr r es => simp [rendersOneB] at h1
      | obj => simp [rendersOneB] at h1
      | func => simp [rendersOneB] at h1

/-- C9, amended: updating a node-list target with a reference-identical value
is a no-op (the same document and the same list come back); and when the
list was rendered one node per element — every element a primitive, `null`,
or the node itself, matching the node's kind — re-updating with that array
preserves every node identity, the tree, the trace, and the allocator.
Identity is *not* preserved for arrays with array-valued elements (see the
counterexample): such an element replaces its node. -/
theorem C9_amended_idempotent_reconciliation :
    (∀ (d : Dom) (r : Nat) (ns : List Nat) (elems : List RVal),
      updateMany d r ns (.arr r elems) = .ok (d, .many ns)) ∧
    (∀ (d : Dom) (r r2 : Nat) (ns : List Nat) (xs : List RVal),
      rendersListB d ns xs = true →
      ∃ d2, updateMany d r ns (.arr r2 xs) = .ok (d2, .many ns) ∧
        d2.tree = d.tree ∧ d2.trace = d.trace ∧ d2.fresh = d.fresh) := by
  constructor
  · intro d r ns elems
    simp [updateMany, pureE]
  · intro d r r2 ns xs h
    by_cases hr : (r2 == r) = true
    · exact ⟨d, by simp [updateMany, hr, pureE], rfl, rfl, rfl⟩
    · have hr' : (r2 == r) = false := by simpa using hr
      obtain ⟨d2, he, ht, htr, hf⟩ := updateLoop_renders ns xs d h
      refine ⟨d2, ?_, ht, htr, hf⟩
      simp [updateMany, hr', he, bindM_ok, pureE, removeAll, insertLoop]

/-- C9 amended witness: a two-text-node list: the no-op half applied with the
reference-identical array, and the identity-preservation half applied with
the primitive values it was rendered from. -/
theorem C9_amended_idempotent_reconciliation_witness :
    updateMany (domOf [(0, .text "a"), (1, .text "b")] [0, 1]) 5 [0, 1]
        (.arr 5 [.node 0, .node 1]) =
      .ok (domOf [(0, .text "a"), (1, .text "b")] [0, 1], .many [0, 1]) ∧
    ∃ d2, updateMany (domOf [(0, .text "a"), (1, .text "b")] [0, 1]) 0 [0, 1]
        (.arr 1 [.str "a", .str "b"]) = .ok (d2, .many [0, 1]) ∧
      d2.tree = (domOf [(0, .text "a"), (1, .text "b")] [0, 1]).tree ∧
      d2.trace = (domOf [(0, .text "a"), (1, .text "b")] [0, 1]).trace ∧
      d2.fresh = (domOf [(0, .text "a"), (1, .text "b")] [0, 1]).fresh :=
  ⟨C9_amended_idempotent_reconciliation.1
     (domOf [(0, .text "a"), (1, .text "b")] [0, 1]) 5 [0, 1] [.node 0, .node 1],
   C9_amended_idempotent_reconciliation.2
     (domOf [(0, .text "a"), (1, .text "b")] [0, 1]) 0 1 [0, 1]
     [.str "a", .str "b"] (by decide)⟩
